import Mathlib

/-!
Verification of the arch-flow repository: a shallow embedding of the
diagram animation engine (DiagramViewer), the analysis job orchestrator
and status store, the SSE status stream, and the blob storage layer,
together with proofs of the behavioural properties stated in the design
specification.
-/

namespace ArchFlow

/-! ## Character-level helpers shared by the label matcher

`highlightNode` in DiagramViewer works on JavaScript strings with
`toLowerCase`, `trim`, `replace(/[\u{1F300}-\u{1F9FF}]/gu, '')` and
`split(/\s+/)`.  We embed strings as `List Char` and reproduce those
operations exactly. -/

/-- The JavaScript whitespace class: the characters matched by the regex
class `\s` and removed by `String.prototype.trim`. -/
def isJsWS (c : Char) : Bool :=
  c.toNat == 0x9 || c.toNat == 0xa || c.toNat == 0xb || c.toNat == 0xc ||
  c.toNat == 0xd || c.toNat == 0x20 || c.toNat == 0xa0 || c.toNat == 0x1680 ||
  (0x2000 ≤ c.toNat && c.toNat ≤ 0x200a) || c.toNat == 0x2028 ||
  c.toNat == 0x2029 || c.toNat == 0x202f || c.toNat == 0x205f ||
  c.toNat == 0x3000 || c.toNat == 0xfeff

/-- JavaScript `toLowerCase` restricted to the ASCII range (all characters
appearing in the repository's labels are ASCII letters, digits, punctuation
or emoji; `toLowerCase` is the identity on the non-letter ones). -/
def jsToLower (c : Char) : Char :=
  if 0x41 ≤ c.toNat ∧ c.toNat ≤ 0x5a then Char.ofNat (c.toNat + 32) else c

/-- JavaScript `String.prototype.trim`: drop `\s` characters from both ends. -/
def jsTrim (s : List Char) : List Char :=
  ((s.dropWhile isJsWS).reverse.dropWhile isJsWS).reverse

/-- The emoji-stripping `replace(/[\u{1F300}-\u{1F9FF}]/gu, '')` from
`highlightNode`: it removes exactly the code points U+1F300 through U+1F9FF
(and nothing else, in particular not the variation selector U+FE0F). -/
def stripEmoji (s : List Char) : List Char :=
  s.filter (fun c => !(0x1F300 ≤ c.toNat && c.toNat ≤ 0x1F9FF))

/-- JavaScript `split(/\s+/)` as a left-to-right scan.  The accumulator is
`some cur` while a piece (possibly empty, reversed in `cur`) is being
read, and `none` while a maximal whitespace run — one separator — is being
consumed; a trailing separator contributes a final empty piece, exactly as
in JavaScript. -/
def splitWSGo : List Char → Option (List Char) → List (List Char)
  | [], none => [[]]
  | [], some cur => [cur.reverse]
  | c :: rest, none =>
    if isJsWS c then splitWSGo rest none else splitWSGo rest (some [c])
  | c :: rest, some cur =>
    if isJsWS c then cur.reverse :: splitWSGo rest none
    else splitWSGo rest (some (c :: cur))

/-- JavaScript `s.split(/\s+/)` on the character list `s`.  On the empty
string this yields `[""]`, like the JavaScript call. -/
def jsSplitWS (s : List Char) : List (List Char) := splitWSGo s (some [])

/-- The indexed `Array.prototype.every` call of `highlightNode`:
`words.every((word, idx) => labelWords[idx] === word)`; an out-of-range
index yields `undefined`, which compares unequal to any string. -/
def everyIdxEq : List (List Char) → Nat → List (List Char) → Bool
  | [], _, _ => true
  | w :: ws, i, lws => decide (lws[i]? = some w) && everyIdxEq ws (i + 1) lws

/-- The node-label matching test of `highlightNode` (DiagramViewer):
lower-case and trim the queried `nodeName`; lower-case, trim, emoji-strip
and re-trim the candidate rendered label; split both on whitespace; accept
iff every query word equals the label word at the same index. -/
def highlightNodeMatch (nodeName labelText : List Char) : Bool :=
  let normalizedName := jsTrim (nodeName.map jsToLower)
  let lowered := jsTrim (labelText.map jsToLower)
  let cleanLabel := jsTrim (stripEmoji lowered)
  let words := jsSplitWS normalizedName
  let labelWords := jsSplitWS cleanLabel
  everyIdxEq words 0 labelWords

/-- String-level wrapper of `highlightNodeMatch`. -/
def labelMatches (nodeName labelText : String) : Bool :=
  highlightNodeMatch nodeName.data labelText.data

/-- Word-for-word positional equality of tokens: the query tokens must
each equal the candidate token at the same position (so the query is a
word-level initial segment of the candidate). -/
def tokensLeadEq : List (List Char) → List (List Char) → Bool
  | [], _ => true
  | _ :: _, [] => false
  | w :: ws, x :: xs => decide (w = x) && tokensLeadEq ws xs

/-- The matching rule exactly as the specification words it (§4.3 step 3):
normalize BOTH the query and the candidate by trimming, lower-casing and
stripping emoji, tokenize both on whitespace, and match iff every query
token equals the candidate token at the same position. -/
def specLabelMatch (nodeName labelText : String) : Bool :=
  let nq := jsTrim (stripEmoji (jsTrim (nodeName.data.map jsToLower)))
  let nc := jsTrim (stripEmoji (jsTrim (labelText.data.map jsToLower)))
  tokensLeadEq (jsSplitWS nq) (jsSplitWS nc)

/-- The query-side tokens actually used by `highlightNode`: trim and
lower-case only (no emoji stripping on the query). -/
def queryTokens (nodeName : String) : List (List Char) :=
  jsSplitWS (jsTrim (nodeName.data.map jsToLower))

/-- The candidate-side tokens actually used by `highlightNode`: trim,
lower-case, strip emoji code points, trim again. -/
def candidateTokens (labelText : String) : List (List Char) :=
  jsSplitWS (jsTrim (stripEmoji (jsTrim (labelText.data.map jsToLower))))

/-! ## Data model (src/lib/types.ts) -/

/-- `GitHubRepo` from types.ts. -/
structure GitHubRepo where
  owner : String
  name : String
  branch : Option String := none
deriving DecidableEq, Repr

/-- `AnimationStep` from types.ts. -/
structure AnimationStep where
  step : Nat
  node : String
  message : String
  duration : Nat
  request : Option String := none
  response : Option String := none
deriving DecidableEq, Repr

/-- `Flow` from types.ts. -/
structure Flow where
  name : String
  description : String
  steps : List AnimationStep
  nodes : List String
deriving DecidableEq, Repr

/-- `ArchitectureAnalysis` from types.ts. -/
structure ArchitectureAnalysis where
  diagram : String
  flows : List Flow
  timestamp : Nat
  repoInfo : GitHubRepo
deriving DecidableEq, Repr

/-- The job phase union of `AnalysisStatus.status` from types.ts. -/
inductive Phase
  | downloading
  | extracting
  | analyzing
  | generating
  | complete
  | error
deriving DecidableEq, Repr

/-- `AnalysisStatus` from types.ts. -/
structure AnalysisStatus where
  status : Phase
  progress : Nat
  message : String
  error : Option String := none
deriving DecidableEq, Repr

/-- `AnalysisJob` from src/lib/analysis.ts. -/
structure AnalysisJob where
  id : String
  repo : GitHubRepo
  status : AnalysisStatus
  createdAt : Nat
  result : Option ArchitectureAnalysis := none
deriving DecidableEq, Repr

/-! ## Animation engine: autoplay loop (DiagramViewer `animateStep`)

The autoplay loop is single-threaded and timer-driven: each invocation of
`animateStep` with `stepIndex < steps.length` shows step `stepIndex + 1`,
clears old highlights, awaits `highlightNode` (which resolves after the
step's `duration`), and then schedules the next invocation after another
`step.duration` — so on virtual time a step occupies
`duration + duration` milliseconds before the next invocation runs.  When
`stepIndex` reaches the step count, the invocation resets to idle with
step 0.  We embed the loop on a virtual-time state. -/

structure AutoplayState where
  time : Nat
  stepIndex : Nat
  currentStep : Nat
  isAnimating : Bool
deriving DecidableEq, Repr

/-- The whole unpaused autoplay run: invoke `animateStep` repeatedly until
the invocation that finds the cursor past the last step and resets to
idle. -/
def runAutoplay (steps : List AnimationStep) (s : AutoplayState) : AutoplayState :=
  if h : s.stepIndex < steps.length then
    let st := steps.get ⟨s.stepIndex, h⟩
    runAutoplay steps
      { time := s.time + st.duration + st.duration
        stepIndex := s.stepIndex + 1
        currentStep := s.stepIndex + 1
        isAnimating := s.isAnimating }
  else
    { s with isAnimating := false, currentStep := 0 }
termination_by steps.length - s.stepIndex
decreasing_by simp_wf; omega

/-- The state in which `handleStartAnimation` leaves the engine before the
first `animateStep` invocation: step reset to 0, not paused, animating.
The effect then computes `stepIndex = currentStep > 0 ? currentStep - 1 : 0`,
which is 0 here. -/
def initAutoplay : AutoplayState :=
  { time := 0, stepIndex := 0, currentStep := 0, isAnimating := true }

/-- The virtual start time of step `i` (0-based) in an unpaused autoplay
run: step `i` begins once every earlier step has spent its awaited
highlight duration plus the equal follow-up delay. -/
def stepStart (steps : List AnimationStep) : Nat → Nat
  | 0 => 0
  | i + 1 => stepStart steps i + 2 * (((steps[i]?).map AnimationStep.duration).getD 0)

/-- Whether step `i`'s node-highlight window is active at virtual instant
`t`: the emphasis is applied when the step begins and removed by the
`setTimeout` in `highlightNode` after the step's `duration`. -/
def highlightActive (steps : List AnimationStep) (i t : Nat) : Bool :=
  match steps[i]? with
  | none => false
  | some st => decide (stepStart steps i ≤ t) && decide (t < stepStart steps i + st.duration)

/-- Whether the rendered node labelled `ℓ` carries highlight emphasis at
virtual instant `t`: `highlightNode` applies the emphasis to every rendered
node whose label matches the current step's `node` query (the
`nodes.forEach` loop has no early exit). -/
def nodeEmphasized (steps : List AnimationStep) (labels : List String)
    (ℓ : String) (t : Nat) : Bool :=
  decide (ℓ ∈ labels) &&
    (List.range steps.length).any fun i =>
      highlightActive steps i t &&
        (((steps[i]?).map fun st => labelMatches st.node ℓ).getD false)

/-! ## Animation engine: manual navigation and stop (DiagramViewer) -/

/-- The component state handled by the DiagramViewer control handlers. -/
structure ViewerState where
  selectedFlow : Nat
  isAnimating : Bool
  isPaused : Bool
  currentStep : Nat
deriving DecidableEq, Repr

/-- The arguments a handler passes to `highlightNode`. -/
structure HighlightCall where
  node : String
  duration : Nat
  stepNumber : Nat
deriving DecidableEq, Repr

/-- `handlePreviousStep`: guard on a present flow, clamp the target step
with `Math.max(1, currentStep - 1)`, and highlight the step's node for a
fixed 5000 ms.  Returns the new state and the `highlightNode` call made
(`none` when the handler returned early or the indexed step is absent). -/
def handlePreviousStep (flows : List Flow) (s : ViewerState) :
    ViewerState × Option HighlightCall :=
  if flows.length = 0 then (s, none)
  else
    match flows[s.selectedFlow]? with
    | none => (s, none)
    | some flow =>
      let newStep := max 1 (s.currentStep - 1)
      ({ s with currentStep := newStep },
       (flow.steps[newStep - 1]?).map fun st => ⟨st.node, 5000, st.step⟩)

/-- `handleNextStep`: guard on a present flow, clamp the target step with
`Math.min(flow.steps.length, currentStep + 1)`, and highlight the step's
node for a fixed 5000 ms. -/
def handleNextStep (flows : List Flow) (s : ViewerState) :
    ViewerState × Option HighlightCall :=
  if flows.length = 0 then (s, none)
  else
    match flows[s.selectedFlow]? with
    | none => (s, none)
    | some flow =>
      let newStep := min flow.steps.length (s.currentStep + 1)
      ({ s with currentStep := newStep },
       (flow.steps[newStep - 1]?).map fun st => ⟨st.node, 5000, st.step⟩)

/-- The visual attributes `clearHighlights` and `highlightNode` manipulate
on a rendered node's shape. -/
structure NodeVisual where
  label : String
  filter : String
  transform : String
deriving DecidableEq, Repr

/-- The visual attributes `clearHighlights` and `highlightArrow` manipulate
on a rendered edge path. -/
structure ArrowVisual where
  stroke : String
  strokeWidth : String
  filter : String
  strokeDasharray : String
  strokeDashoffset : String
deriving DecidableEq, Repr

/-- The rendered SVG state the engine mutates. -/
structure DiagramDom where
  nodes : List NodeVisual
  arrows : List ArrowVisual
deriving DecidableEq, Repr

/-- The per-node reset performed by `clearHighlights`. -/
def clearNode (n : NodeVisual) : NodeVisual :=
  { n with filter := "none", transform := "scale(1)" }

/-- The per-arrow reset performed by `clearHighlights`. -/
def clearArrow (a : ArrowVisual) : ArrowVisual :=
  { a with stroke := "", strokeWidth := "", filter := "none",
           strokeDasharray := "none", strokeDashoffset := "0" }

/-- `clearHighlights` (DiagramViewer): reset every rendered node shape and
every rendered arrow path to the unhighlighted defaults. -/
def clearHighlights (d : DiagramDom) : DiagramDom :=
  ⟨d.nodes.map clearNode, d.arrows.map clearArrow⟩

/-- Whether a rendered diagram shows no remaining visual emphasis on any
node or edge. -/
def DiagramDom.fullyCleared (d : DiagramDom) : Bool :=
  d.nodes.all (fun n => n.filter == "none" && n.transform == "scale(1)") &&
  d.arrows.all (fun a =>
    a.stroke == "" && a.strokeWidth == "" && a.filter == "none" &&
    a.strokeDasharray == "none" && a.strokeDashoffset == "0")

/-- The engine state the stop handler acts on: the React flags plus the
rendered SVG. -/
structure EngineUI where
  isAnimating : Bool
  isPaused : Bool
  currentStep : Nat
  dom : DiagramDom
deriving DecidableEq, Repr

/-- `handleStopAnimation`: clear the animating and paused flags, reset the
step to 0, and clear all highlights. -/
def handleStopAnimation (s : EngineUI) : EngineUI :=
  { isAnimating := false
    isPaused := false
    currentStep := 0
    dom := clearHighlights s.dom }

/-! ## Job orchestrator status writes (src/lib/analyzer.ts, analysis.ts) -/

/-- The status written by `createAnalysisJob` when the job is created. -/
def initialStatus : AnalysisStatus :=
  { status := .downloading, progress := 0, message := "Starting analysis..." }

/-- The status updates `runAnalysis` writes on the success path, in order:
the four `updateAnalysisStatus` calls followed by the terminal status
written by `completeAnalysisJob`. -/
def runAnalysisUpdates (repo : GitHubRepo) : List AnalysisStatus :=
  [ { status := .downloading, progress := 10,
      message := "Downloading " ++ repo.owner ++ "/" ++ repo.name ++ "..." },
    { status := .extracting, progress := 30,
      message := "Extracting repository files..." },
    { status := .analyzing, progress := 50,
      message := "Analyzing code architecture with Claude..." },
    { status := .generating, progress := 80,
      message := "Generating architecture diagram..." },
    { status := .complete, progress := 100,
      message := "Analysis complete!" } ]

/-- The terminal status written by `failAnalysisJob`: phase `error`,
progress 0, the failure message in the `error` field. -/
def failStatus (errMsg : String) : AnalysisStatus :=
  { status := .error, progress := 0, message := "Analysis failed", error := some errMsg }

/-- The sequence of statuses a single `runAnalysis` run writes to the
job's record, starting from the creation write.  `failAfter = none` is the
success path; `failAfter = some k` models an exception thrown after `k`
successful status writes, which the `catch` block turns into a
`failAnalysisJob` write. -/
def runAnalysisStatusTrail (repo : GitHubRepo) (failAfter : Option Nat)
    (errMsg : String) : List AnalysisStatus :=
  match failAfter with
  | none => initialStatus :: runAnalysisUpdates repo
  | some k => initialStatus :: (runAnalysisUpdates repo).take k ++ [failStatus errMsg]

/-! ## AI analysis adapter and its placeholder (src/lib/analyzer.ts) -/

/-- The `diagram`/`flows` pair produced by `analyzeWithClaude` (the
`Omit<ArchitectureAnalysis, 'timestamp' | 'repoInfo'>` of the source). -/
structure AnalysisCore where
  diagram : String
  flows : List Flow
deriving DecidableEq, Repr

/-- `getMockAnalysis` from analyzer.ts: the deterministic placeholder
artifact. -/
def getMockAnalysis (repo : GitHubRepo) : AnalysisCore :=
  { diagram :=
      "flowchart TD\n    Client[\"🖥️ Client<br/>Browser\"]\n    Server[\"⚙️ Server<br/>"
        ++ repo.name ++
        "\"]\n    DB[(\"🗄️ Database\")]\n    Cache[(\"💾 Cache\")]\n\n    Client -->|Request| Server\n    Server -->|Query| DB\n    Server -->|Read/Write| Cache\n    DB -->|Data| Server\n    Cache -->|Data| Server\n    Server -->|Response| Client\n\n    style Client fill:#3498db,stroke:#2980b9,stroke-width:3px,color:#fff\n    style Server fill:#2ecc71,stroke:#27ae60,stroke-width:3px,color:#fff\n    style DB fill:#e74c3c,stroke:#c0392b,stroke-width:3px,color:#fff\n    style Cache fill:#f39c12,stroke:#e67e22,stroke-width:3px,color:#fff"
    flows :=
      [ { name := "User Request Flow"
          description := "A typical user request through the system"
          steps :=
            [ { step := 1, node := "Client", message := "User initiates request", duration := 800 },
              { step := 2, node := "Server", message := "Server receives request", duration := 800 },
              { step := 3, node := "Cache", message := "Check cache for data", duration := 600 },
              { step := 4, node := "DB", message := "Query database if cache miss", duration := 1000 },
              { step := 5, node := "Server", message := "Process and format response", duration := 800 },
              { step := 6, node := "Client", message := "Return response to client", duration := 800 } ]
          nodes := ["Client", "Server", "Cache", "DB"] } ] }

/-- `analyzeWithClaude` from analyzer.ts, with the external model call
abstracted as the `externalResult` parameter: when there is no API key or
the source buffer is empty, the deterministic placeholder is substituted;
otherwise the external adapter's artifact is returned. -/
def analyzeWithClaude (externalResult : AnalysisCore) (hasApiKey : Bool)
    (repo : GitHubRepo) (codeBufferLength : Nat) : AnalysisCore :=
  if hasApiKey = false ∨ codeBufferLength = 0 then getMockAnalysis repo
  else externalResult

/-! ## Status stream server (app/api/analyze/[analysisId]/stream GET) -/

/-- The server-sent events the stream endpoint emits. -/
inductive SSEEvent
  | status (s : AnalysisStatus)
  | complete (a : ArchitectureAnalysis)
  | error (message : String)
deriving DecidableEq, Repr

/-- JavaScript `x || 'Analysis failed'` on an optional string: the
fallback is used when the field is absent or the empty string. -/
def jsOrFailed (s : Option String) : String :=
  match s with
  | some e => if e = "" then "Analysis failed" else e
  | none => "Analysis failed"

/-- One poll tick of the stream endpoint: the events it emits for the
observed job snapshot, and whether it clears the interval and closes the
stream.  An unknown id emits a single `error` event and closes; a known
job always gets a `status` event, then a `complete` or `error` event
closes the stream in the terminal phases. -/
def pollOnce : Option AnalysisJob → List SSEEvent × Bool
  | none => ([.error "Analysis job not found"], true)
  | some j =>
    match j.status.status, j.result with
    | .complete, some a => ([.status j.status, .complete a], true)
    | .error, _ => ([.status j.status, .error (jsOrFailed j.status.error)], true)
    | _, _ => ([.status j.status], false)

/-- The whole stream over a sequence of polled job snapshots: concatenate
each tick's events, stopping at the first tick that closes the stream. -/
def runStream : List (Option AnalysisJob) → List SSEEvent
  | [] => []
  | o :: rest =>
    let r := pollOnce o
    if r.2 then r.1 else r.1 ++ runStream rest

/-! ## Status store (src/lib/kv-client.ts development fallback, analysis.ts)

The development key-value store is a process-wide map from keys to values
with an optional expiry instant; `get` lazily deletes an entry whose
expiry has passed.  Stored values are JSON strings; we model a stored
string as either a serialized job (`jobVal`, with `JSON.parse` recovering
the job) or an unparsable string (`raw`). -/

/-- A value held in the key-value store. -/
inductive KVVal
  | jobVal (j : AnalysisJob)
  | raw (s : String)
deriving DecidableEq, Repr

/-- A store entry: the value and the optional expiry instant. -/
structure KVEntry where
  value : KVVal
  expiresAt : Option Nat := none
deriving DecidableEq, Repr

/-- The in-memory store: an association list keyed by the KV key (the
first binding for a key is the current one). -/
def KVStore : Type := List (String × KVEntry)

instance : DecidableEq KVStore := inferInstanceAs (DecidableEq (List (String × KVEntry)))

/-- Remove a key's binding (JavaScript `Map.delete`). -/
def kvErase (store : KVStore) (key : String) : KVStore :=
  store.filter fun p => !(p.1 == key)

/-- `kvClient.get` in development mode at instant `now`: look the key up;
an entry whose expiry has passed is deleted and reported absent.  Returns
the read value and the store after the read. -/
def kvGet (store : KVStore) (now : Nat) (key : String) : Option KVVal × KVStore :=
  match List.lookup key store with
  | none => (none, store)
  | some e =>
    match e.expiresAt with
    | some exp => if exp < now then (none, kvErase store key) else (some e.value, store)
    | none => (some e.value, store)

/-- `kvClient.set` in development mode with the `ex` (seconds) option:
bind the key to the value, expiring `ex` seconds from `now`. -/
def kvSet (store : KVStore) (now : Nat) (key : String) (v : KVVal)
    (exSeconds : Nat) : KVStore :=
  (key, { value := v, expiresAt := some (now + exSeconds * 1000) }) :: kvErase store key

/-- The `ANALYSIS_TTL` constant (one hour, in seconds) from analysis.ts. -/
def ANALYSIS_TTL : Nat := 60 * 60

/-- The store key for a job id (`ANALYSIS_PREFIX` + id). -/
def analysisKey (id : String) : String := "analysis:" ++ id

/-- `JSON.parse` of a stored job string: a serialized job parses back to
the job; any other stored string fails to parse. -/
def parseJob : KVVal → Option AnalysisJob
  | .jobVal j => some j
  | .raw _ => none

/-- `getAnalysisJob` from analysis.ts: read the key, return `null` for a
missing value or a parse failure.  Returns the parsed job and the store
after the read (the read may lazily delete an expired entry). -/
def getAnalysisJobS (store : KVStore) (now : Nat) (id : String) :
    Option AnalysisJob × KVStore :=
  let r := kvGet store now (analysisKey id)
  match r.1 with
  | none => (none, r.2)
  | some v => (parseJob v, r.2)

/-- `updateAnalysisStatus` from analysis.ts: fetch the job; return with no
write when it is absent; otherwise overwrite the job with the new status. -/
def updateAnalysisStatusS (store : KVStore) (now : Nat) (id : String)
    (status : AnalysisStatus) : KVStore :=
  let r := getAnalysisJobS store now id
  match r.1 with
  | none => r.2
  | some job =>
    kvSet r.2 now (analysisKey id) (.jobVal { job with status := status }) ANALYSIS_TTL

/-- `completeAnalysisJob` from analysis.ts: fetch the job; return with no
write when it is absent; otherwise mark it complete with progress 100 and
attach the result. -/
def completeAnalysisJobS (store : KVStore) (now : Nat) (id : String)
    (result : ArchitectureAnalysis) : KVStore :=
  let r := getAnalysisJobS store now id
  match r.1 with
  | none => r.2
  | some job =>
    kvSet r.2 now (analysisKey id)
      (.jobVal { job with
                  status := { status := .complete, progress := 100,
                              message := "Analysis complete!" }
                  result := some result })
      ANALYSIS_TTL

/-- `failAnalysisJob` from analysis.ts: fetch the job; return with no
write when it is absent; otherwise mark it failed (progress 0) with the
error message. -/
def failAnalysisJobS (store : KVStore) (now : Nat) (id : String)
    (errMsg : String) : KVStore :=
  let r := getAnalysisJobS store now id
  match r.1 with
  | none => r.2
  | some job =>
    kvSet r.2 now (analysisKey id) (.jobVal { job with status := failStatus errMsg })
      ANALYSIS_TTL

/-! ## Result store (src/lib/storage.ts over the blob-client development
fallback)

The development blob store is a process-wide map from string keys to
stored strings.  `saveAnalysis` stores `JSON.stringify(analysis)` under
`owner/name/analysis.json`; `getAnalysis` parses the stored string back.
A stored string is modelled as either a serialized artifact or an
unparsable blob. -/

/-- A value held in the blob store. -/
inductive BlobVal
  | analysisVal (a : ArchitectureAnalysis)
  | rawBlob (s : String)
deriving DecidableEq, Repr

/-- The in-memory blob store. -/
def BlobStore : Type := List (String × BlobVal)

instance : DecidableEq BlobStore := inferInstanceAs (DecidableEq (List (String × BlobVal)))

/-- `blobClient.put` in development mode (JavaScript `Map.set`). -/
def blobPut (store : BlobStore) (key : String) (v : BlobVal) : BlobStore :=
  (key, v) :: store.filter fun p => !(p.1 == key)

/-- `blobClient.get` in development mode. -/
def blobGet (store : BlobStore) (key : String) : Option BlobVal :=
  List.lookup key store

/-- `getRepoKey` from src/lib/github.ts. -/
def getRepoKey (repo : GitHubRepo) : String := repo.owner ++ "/" ++ repo.name

/-- The blob key `saveAnalysis`/`getAnalysis` derive for a repository. -/
def storageKey (repo : GitHubRepo) : String := getRepoKey repo ++ "/analysis.json"

/-- `JSON.parse` of a stored artifact string. -/
def parseAnalysis : BlobVal → Option ArchitectureAnalysis
  | .analysisVal a => some a
  | .rawBlob _ => none

/-- `saveAnalysis` from storage.ts (development path): store the
serialized artifact under the repository's key. -/
def saveAnalysisS (store : BlobStore) (repo : GitHubRepo)
    (analysis : ArchitectureAnalysis) : BlobStore :=
  blobPut store (storageKey repo) (.analysisVal analysis)

/-- `getAnalysis` from storage.ts (development path): read the
repository's key and parse; a missing key or a parse failure yields
`null`. -/
def getAnalysisS (store : BlobStore) (repo : GitHubRepo) :
    Option ArchitectureAnalysis :=
  match blobGet store (storageKey repo) with
  | none => none
  | some v => parseAnalysis v

/-! ## Concrete fixtures used by counterexamples and witnesses -/

/-- A sample repository identity. -/
def demoRepo : GitHubRepo := { owner := "acme", name := "widgets" }

/-- A second repository identity over the same owner. -/
def demoRepoOther : GitHubRepo := { owner := "acme", name := "gears" }

/-- The three-step flow of the specification's autoplay timing scenario:
authored durations 800, 800 and 1000 ms. -/
def demoSteps : List AnimationStep :=
  [ { step := 1, node := "Client", message := "User sends request", duration := 800 },
    { step := 2, node := "Server", message := "Server handles request", duration := 800 },
    { step := 3, node := "Client", message := "Response returned", duration := 1000 } ]

/-- A one-step flow whose node query matches two rendered labels. -/
def overlapSteps : List AnimationStep :=
  [ { step := 1, node := "Server", message := "fan out", duration := 5 } ]

/-- Two rendered node labels that both start with the word "server". -/
def overlapLabels : List String := ["Server A", "Server B"]

/-- A two-step flow for manual-navigation witnesses. -/
def demoFlow : Flow :=
  { name := "Demo"
    description := "two steps"
    steps :=
      [ { step := 1, node := "Client", message := "one", duration := 700 },
        { step := 2, node := "Server", message := "two", duration := 900 } ]
    nodes := ["Client", "Server"] }

/-- A sample finished artifact. -/
def demoArtifact : ArchitectureAnalysis :=
  { diagram := "flowchart TD"
    flows := [demoFlow]
    timestamp := 1700000000
    repoInfo := demoRepo }

/-- A job observed in phase `complete` with its artifact attached. -/
def demoJobComplete : AnalysisJob :=
  { id := "job-1"
    repo := demoRepo
    status := { status := .complete, progress := 100, message := "Analysis complete!" }
    createdAt := 0
    result := some demoArtifact }

/-- A job observed in phase `error`. -/
def demoJobFailed : AnalysisJob :=
  { id := "job-2"
    repo := demoRepo
    status := failStatus "boom"
    createdAt := 0 }

/-- A status store holding one entry whose expiry (instant 5) has passed. -/
def staleStore : KVStore :=
  [(analysisKey "stale",
    { value := .jobVal { id := "stale", repo := demoRepo, status := initialStatus, createdAt := 0 }
      expiresAt := some 5 })]

/-- A repository identity whose name contains a slash. -/
def repoSlashOne : GitHubRepo := { owner := "a", name := "b/c" }

/-- A distinct repository identity whose owner contains a slash; it derives
the same storage key as `repoSlashOne`. -/
def repoSlashTwo : GitHubRepo := { owner := "a/b", name := "c" }

/-! ## Helper lemmas -/

/-- The indexed `every` of `highlightNode` is positional word-for-word
agreement with the candidate tokens from index `i` on. -/
theorem everyIdxEq_eq_tokensLeadEq (ws : List (List Char)) :
    ∀ (i : Nat) (lws : List (List Char)),
      everyIdxEq ws i lws = tokensLeadEq ws (lws.drop i) := by
  induction ws with
  | nil => intro i lws; simp [everyIdxEq, tokensLeadEq]
  | cons w ws ih =>
    intro i lws
    rcases hdrop : lws.drop i with _ | ⟨x, xs⟩
    · have hnone : lws[i]? = none := by
        have h0 : (lws.drop i)[0]? = lws[i]? := by
          simp [List.getElem?_drop]
        rw [hdrop] at h0
        simpa using h0.symm
      have htail : lws.drop (i + 1) = [] := by
        have : (lws.drop i).drop 1 = lws.drop (i + 1) := by
          rw [List.drop_drop]
        rw [hdrop] at this
        simpa using this.symm
      simp [everyIdxEq, tokensLeadEq, hnone, ih, htail]
    · have hget : lws[i]? = some x := by
        have h0 : (lws.drop i)[0]? = lws[i]? := by
          simp [List.getElem?_drop]
        rw [hdrop] at h0
        simpa using h0.symm
      have htail : lws.drop (i + 1) = xs := by
        have : (lws.drop i).drop 1 = lws.drop (i + 1) := by
          rw [List.drop_drop]
        rw [hdrop] at this
        simpa using this.symm
      by_cases hwx : w = x
      · subst hwx
        simp [everyIdxEq, tokensLeadEq, hget, ih, htail]
      · simp [everyIdxEq, tokensLeadEq, hget, ih, htail, hwx, Ne.symm hwx]

/-! ## C1: node-label resolution -/

/-- C1 counterexample: the emoji stripping removes only the code points
U+1F300 through U+1F9FF, so the variation selector U+FE0F riding on 🖥️
survives as a leading token of the candidate, and the query "client" does
NOT match the rendered label "🖥️ Client Browser", contrary to the claim;
moreover stripping is applied to the candidate only, so a query carrying
the emoji fails even though the spec's both-sides normalization accepts
it. -/
theorem c1_counterexample :
    labelMatches "client" "🖥️ Client Browser" = false ∧
    specLabelMatch "🖥️ client" "🖥️ client browser" = true ∧
    labelMatches "🖥️ client" "🖥️ client browser" = false := by
  refine ⟨by decide, by decide, by decide⟩

/-- C1 (amended): matching trims and lower-cases both strings, but strips
the emoji code points U+1F300–U+1F9FF from the candidate only; the match
then holds iff every token of the query, in order, equals the token at
the same position in the candidate.  "Chat Service" matches
"Chat Service Message Handling", "Chat" does not match
"Channels Group Chat", and "client" matches "🖥 Client Browser" when the
emoji carries no variation selector, but not "🖥️ Client Browser", whose
residual U+FE0F forms a leading candidate token. -/
theorem c1_amended :
    (∀ q c : String, labelMatches q c = tokensLeadEq (queryTokens q) (candidateTokens c)) ∧
    labelMatches "Chat Service" "Chat Service Message Handling" = true ∧
    labelMatches "Chat" "Channels Group Chat" = false ∧
    labelMatches "client" "🖥 Client Browser" = true ∧
    labelMatches "client" "🖥️ Client Browser" = false := by
  refine ⟨?_, by decide, by decide, by decide, by decide⟩
  intro q c
  show highlightNodeMatch q.data c.data = _
  rw [highlightNodeMatch, queryTokens, candidateTokens, everyIdxEq_eq_tokensLeadEq]
  rfl

/-! ## C2: autoplay timing -/

/-- Closed form of the unpaused autoplay loop: starting anywhere, the loop
spends twice each remaining step's authored duration, then ends in the
idle state with the step indicator reset to 0. -/
theorem runAutoplay_closed (steps : List AnimationStep) :
    ∀ (n : Nat) (s : AutoplayState), steps.length - s.stepIndex ≤ n →
      runAutoplay steps s =
        { time := s.time + 2 * ((steps.drop s.stepIndex).map AnimationStep.duration).sum
          stepIndex := max s.stepIndex steps.length
          currentStep := 0
          isAnimating := false } := by
  intro n
  induction n with
  | zero =>
    intro s h
    have hge : ¬ s.stepIndex < steps.length := by omega
    rw [runAutoplay, dif_neg hge]
    have hdrop : steps.drop s.stepIndex = [] := List.drop_eq_nil_of_le (by omega)
    have hmax : max s.stepIndex steps.length = s.stepIndex := by omega
    simp [hdrop, hmax]
  | succ n ih =>
    intro s h
    by_cases hlt : s.stepIndex < steps.length
    · rw [runAutoplay, dif_pos hlt]
      show runAutoplay steps
          { time := s.time + (steps.get ⟨s.stepIndex, hlt⟩).duration +
              (steps.get ⟨s.stepIndex, hlt⟩).duration
            stepIndex := s.stepIndex + 1
            currentStep := s.stepIndex + 1
            isAnimating := s.isAnimating } = _
      rw [ih _ (by simp; omega)]
      have hdrop : steps.drop s.stepIndex =
          steps.get ⟨s.stepIndex, hlt⟩ :: steps.drop (s.stepIndex + 1) := by
        simp
      rw [hdrop]
      simp only [List.map_cons, List.sum_cons, AutoplayState.mk.injEq]
      refine ⟨by omega, by omega, trivial, trivial⟩
    · rw [runAutoplay, dif_neg hlt]
      have hdrop : steps.drop s.stepIndex = [] := List.drop_eq_nil_of_le (by omega)
      have hmax : max s.stepIndex steps.length = s.stepIndex := by omega
      simp [hdrop, hmax]

/-- C2 counterexample: on the specification's scenario — three steps with
authored durations 800, 800, 1000 — the unpaused autoplay loop does end
idle at step 0, but only after 5200 ms of virtual time, not ~2600 ms: each
step occupies its awaited highlight duration plus an equal `setTimeout`
delay, i.e. twice its authored duration, and a lone 800 ms step already
occupies 1600 ms. -/
theorem c2_counterexample :
    runAutoplay demoSteps initAutoplay =
      { time := 5200, stepIndex := 3, currentStep := 0, isAnimating := false } ∧
    (runAutoplay demoSteps initAutoplay).time ≠ 2600 ∧
    (runAutoplay (demoSteps.take 1) initAutoplay).time = 1600 := by
  have h3 := runAutoplay_closed demoSteps 3 initAutoplay (by decide)
  have h1 := runAutoplay_closed (demoSteps.take 1) 1 initAutoplay (by decide)
  refine ⟨?_, ?_, ?_⟩
  · rw [h3]; decide
  · rw [h3]; decide
  · rw [h1]; decide

/-- C2 (amended): during unpaused autoplay each step occupies twice its
authored duration (the highlight is awaited for the authored duration and
the next step is scheduled after an equal further delay); once the step
cursor passes the flow's step count the loop ends idle with the current
step reset to 0, after total virtual time twice the sum of the authored
durations — 5200 ms for the scenario's durations 800, 800, 1000. -/
theorem c2_amended :
    (∀ steps : List AnimationStep,
      runAutoplay steps initAutoplay =
        { time := 2 * (steps.map AnimationStep.duration).sum
          stepIndex := steps.length
          currentStep := 0
          isAnimating := false }) ∧
    runAutoplay demoSteps initAutoplay =
      { time := 5200, stepIndex := 3, currentStep := 0, isAnimating := false } := by
  have hall : ∀ steps : List AnimationStep,
      runAutoplay steps initAutoplay =
        { time := 2 * (steps.map AnimationStep.duration).sum
          stepIndex := steps.length
          currentStep := 0
          isAnimating := false } := by
    intro steps
    have h := runAutoplay_closed steps steps.length initAutoplay (by simp [initAutoplay])
    simpa [initAutoplay] using h
  refine ⟨hall, ?_⟩
  rw [hall demoSteps]; decide

/-! ## C3: highlight exclusivity during autoplay -/

/-- Step start times are monotone in the step index. -/
theorem stepStart_mono (steps : List AnimationStep) :
    ∀ {a b : Nat}, a ≤ b → stepStart steps a ≤ stepStart steps b := by
  intro a b hab
  induction b with
  | zero =>
    have : a = 0 := by omega
    subst this
    exact Nat.le_refl _
  | succ b ihb =>
    by_cases h : a ≤ b
    · calc stepStart steps a ≤ stepStart steps b := ihb h
        _ ≤ stepStart steps (b + 1) := by rw [stepStart]; omega
    · have : a = b + 1 := by omega
      subst this
      exact Nat.le_refl _

/-- C3 counterexample: `highlightNode` emphasizes every rendered node whose
label matches the step's query, so with two rendered labels "Server A" and
"Server B" and a step querying "Server", two distinct nodes carry
highlight emphasis at the same instant of autoplay. -/
theorem c3_counterexample :
    nodeEmphasized overlapSteps overlapLabels "Server A" 2 = true ∧
    nodeEmphasized overlapSteps overlapLabels "Server B" 2 = true ∧
    ("Server A" : String) ≠ "Server B" := by
  refine ⟨by decide, by decide, by decide⟩

/-- C3 (amended): during unpaused autoplay the highlight windows of
distinct steps never overlap — highlights are cleared before each step and
a step's emphasis is removed after its duration, one authored duration
before the next step begins (also for duration 0, whose window is empty) —
so at any instant at most one step's highlight is active; however, within
that step every rendered node whose label matches the step's query is
emphasized, so more than one node may glow at once. -/
theorem c3_amended (steps : List AnimationStep) (i j t : Nat)
    (hi : highlightActive steps i t = true) (hj : highlightActive steps j t = true) :
    i = j := by
  have unpack : ∀ k, highlightActive steps k t = true →
      ∃ st, steps[k]? = some st ∧
        stepStart steps k ≤ t ∧ t < stepStart steps k + st.duration := by
    intro k hk
    unfold highlightActive at hk
    rcases hgk : steps[k]? with _ | st
    · rw [hgk] at hk
      simp at hk
    · rw [hgk] at hk
      simp at hk
      exact ⟨st, rfl, hk.1, hk.2⟩
  obtain ⟨sti, hgi, hli, hri⟩ := unpack i hi
  obtain ⟨stj, hgj, hlj, hrj⟩ := unpack j hj
  by_contra hne
  have key : ∀ a b (sta : AnimationStep), a < b → steps[a]? = some sta →
      stepStart steps a ≤ t → t < stepStart steps a + sta.duration →
      stepStart steps b ≤ t → False := by
    intro a b sta hab hga hla hra hlb
    have hstep : stepStart steps (a + 1) = stepStart steps a + 2 * sta.duration := by
      rw [stepStart, hga]
      rfl
    have hmono : stepStart steps (a + 1) ≤ stepStart steps b :=
      stepStart_mono steps (by omega)
    omega
  rcases Nat.lt_or_ge i j with hij | hij
  · exact key i j sti hij hgi hli hri hlj
  · exact key j i stj (by omega) hgj hlj hrj hli

/-- C3 witness: the amended disjointness theorem applied at the one-step
fixture, instant 2. -/
theorem c3_witness :
    highlightActive overlapSteps 0 2 = true ∧ (0 : Nat) = 0 :=
  ⟨by decide, c3_amended overlapSteps 0 0 2 (by decide) (by decide)⟩

/-! ## C4: progress monotonicity -/

/-- C4 counterexample: a run that fails after the first 10% update writes
the progress sequence 0, 10, 0 — `failAnalysisJob` resets progress to 0 —
so the progress written over an error-terminated run is not monotonically
non-decreasing. -/
theorem c4_counterexample :
    ((runAnalysisStatusTrail demoRepo (some 1) "download failed").map
      AnalysisStatus.progress) = [0, 10, 0] ∧
    ¬ List.Chain' (fun a b => a ≤ b)
        ((runAnalysisStatusTrail demoRepo (some 1) "download failed").map
          AnalysisStatus.progress) := by
  have hshape : (runAnalysisStatusTrail demoRepo (some 1) "download failed").map
      AnalysisStatus.progress = [0, 10, 0] := by decide
  rw [hshape]
  refine ⟨rfl, ?_⟩
  simp [List.chain'_cons]

/-- C4 (amended): over a successful run the progress sequence written to
the job is exactly 0, 10, 30, 50, 80, 100 and hence monotonically
non-decreasing; over a run that terminates in an error status the sequence
is non-decreasing up to, but not including, the terminal error write,
which resets progress to 0. -/
theorem c4_amended :
    (∀ repo : GitHubRepo,
      (runAnalysisStatusTrail repo none "").map AnalysisStatus.progress =
        [0, 10, 30, 50, 80, 100]) ∧
    (∀ repo : GitHubRepo,
      List.Chain' (fun a b => a ≤ b)
        ((runAnalysisStatusTrail repo none "").map AnalysisStatus.progress)) ∧
    (∀ (repo : GitHubRepo) (failCount : Nat) (errMsg : String),
      List.Chain' (fun a b => a ≤ b)
        (((runAnalysisStatusTrail repo (some failCount) errMsg).map
          AnalysisStatus.progress).dropLast) ∧
      ((runAnalysisStatusTrail repo (some failCount) errMsg).map
        AnalysisStatus.progress).getLast? = some 0) := by
  have hsucc : ∀ repo : GitHubRepo,
      (runAnalysisStatusTrail repo none "").map AnalysisStatus.progress =
        [0, 10, 30, 50, 80, 100] := by
    intro repo
    rfl
  refine ⟨hsucc, fun repo => by rw [hsucc repo]; simp [List.chain'_cons], ?_⟩
  intro repo failCount errMsg
  have hshape : (runAnalysisStatusTrail repo (some failCount) errMsg).map
      AnalysisStatus.progress =
      (0 :: (List.take failCount [10, 30, 50, 80, 100])) ++ [0] := by
    show (initialStatus :: (runAnalysisUpdates repo).take failCount ++
        [failStatus errMsg]).map AnalysisStatus.progress = _
    simp [List.map_take, initialStatus, failStatus, runAnalysisUpdates]
  rw [hshape]
  constructor
  · rw [List.dropLast_concat]
    rcases failCount with _ | _ | _ | _ | _ | k
    · simp [List.chain'_cons]
    · simp [List.chain'_cons]
    · simp [List.chain'_cons]
    · simp [List.chain'_cons]
    · simp [List.chain'_cons]
    · rw [List.take_of_length_le (by simp)]
      simp [List.chain'_cons]
  · rw [List.getLast?_concat]

/-! ## C5: status stream termination -/

/-- C5: on observing a job in phase `complete` with its artifact, the poll
emits the status snapshot followed by exactly one `complete` event
carrying the artifact and closes the stream; on observing phase `error` it
emits the snapshot followed by exactly one `error` event carrying the
failure message and closes; an unknown job id produces a single `error`
event and immediate closure, with no `status` events on the whole
stream. -/
theorem c5_stream_termination :
    (pollOnce none = ([.error "Analysis job not found"], true)) ∧
    (∀ obs : List (Option AnalysisJob),
      runStream (none :: obs) = [.error "Analysis job not found"]) ∧
    (∀ (j : AnalysisJob) (a : ArchitectureAnalysis),
      j.status.status = .complete → j.result = some a →
      pollOnce (some j) = ([.status j.status, .complete a], true)) ∧
    (∀ j : AnalysisJob, j.status.status = .error →
      pollOnce (some j) = ([.status j.status, .error (jsOrFailed j.status.error)], true)) := by
  refine ⟨rfl, ?_, ?_, ?_⟩
  · intro obs
    simp [runStream, pollOnce]
  · intro j a h1 h2
    simp [pollOnce, h1, h2]
  · intro j h1
    rcases hr : j.result with _ | a <;> simp [pollOnce, h1, hr]

/-- C5 witness: the terminal poll behaviours at a concrete completed job
and a concrete failed job. -/
theorem c5_witness :
    pollOnce (some demoJobComplete) =
      ([.status demoJobComplete.status, .complete demoArtifact], true) ∧
    pollOnce (some demoJobFailed) =
      ([.status demoJobFailed.status, .error "boom"], true) := by
  constructor
  · exact c5_stream_termination.2.2.1 demoJobComplete demoArtifact rfl rfl
  · have h := c5_stream_termination.2.2.2 demoJobFailed rfl
    simpa [demoJobFailed, failStatus, jsOrFailed] using h

/-! ## C6: placeholder artifact -/

/-- C6 counterexample: the substituted placeholder artifact has one flow,
but with six steps, not four. -/
theorem c6_counterexample :
    ((analyzeWithClaude (getMockAnalysis demoRepo) false demoRepo 0).flows.map
      fun f => f.steps.length) = [6] ∧
    ((analyzeWithClaude (getMockAnalysis demoRepo) false demoRepo 0).flows.map
      fun f => f.steps.length) ≠ [4] := by
  refine ⟨rfl, by decide⟩

/-- C6 (amended): whenever the API key is absent or the source buffer is
empty, `analyzeWithClaude` substitutes the deterministic placeholder
`getMockAnalysis repo`, which has exactly one flow with exactly six steps
whose `step` fields are 1, 2, 3, 4, 5, 6 — satisfying the producer
contract `steps[j].step = j + 1` for every index. -/
theorem c6_amended (externalResult : AnalysisCore) (hasApiKey : Bool)
    (repo : GitHubRepo) (codeBufferLength : Nat)
    (h : hasApiKey = false ∨ codeBufferLength = 0) :
    analyzeWithClaude externalResult hasApiKey repo codeBufferLength =
      getMockAnalysis repo ∧
    (analyzeWithClaude externalResult hasApiKey repo codeBufferLength).flows.length = 1 ∧
    ((analyzeWithClaude externalResult hasApiKey repo codeBufferLength).flows.map
      fun f => f.steps.map AnimationStep.step) = [[1, 2, 3, 4, 5, 6]] ∧
    ((analyzeWithClaude externalResult hasApiKey repo codeBufferLength).flows.map
      fun f => f.steps.length) = [6] := by
  have hmock : analyzeWithClaude externalResult hasApiKey repo codeBufferLength =
      getMockAnalysis repo := by
    rw [analyzeWithClaude, if_pos h]
  rw [hmock]
  exact ⟨rfl, rfl, rfl, rfl⟩

/-- C6 witness: the amended theorem applied with no API key and an empty
buffer at a concrete repository. -/
theorem c6_witness :
    analyzeWithClaude (getMockAnalysis demoRepo) false demoRepo 0 =
      getMockAnalysis demoRepo ∧
    ((analyzeWithClaude (getMockAnalysis demoRepo) false demoRepo 0).flows.map
      fun f => f.steps.map AnimationStep.step) = [[1, 2, 3, 4, 5, 6]] := by
  have h := c6_amended (getMockAnalysis demoRepo) false demoRepo 0 (Or.inl rfl)
  exact ⟨h.1, h.2.2.1⟩

/-! ## C7: manual step navigation -/

/-- C7: with a selected flow of at least one step and the current step
within bounds, the back and forward handlers clamp the target step to
`[1, stepCount]` — back from step 1 stays at 1, forward from the last step
stays there — and every `highlightNode` call they issue uses the fixed
5000 ms dwell, regardless of the step's authored duration. -/
theorem c7_manual_navigation (flows : List Flow) (s : ViewerState) (flow : Flow)
    (hflow : flows[s.selectedFlow]? = some flow)
    (hsteps : 1 ≤ flow.steps.length)
    (hcur : s.currentStep ≤ flow.steps.length) :
    (handlePreviousStep flows s).1.currentStep = max 1 (s.currentStep - 1) ∧
    1 ≤ (handlePreviousStep flows s).1.currentStep ∧
    (handlePreviousStep flows s).1.currentStep ≤ flow.steps.length ∧
    (handleNextStep flows s).1.currentStep = min flow.steps.length (s.currentStep + 1) ∧
    1 ≤ (handleNextStep flows s).1.currentStep ∧
    (handleNextStep flows s).1.currentStep ≤ flow.steps.length ∧
    (s.currentStep = 1 → (handlePreviousStep flows s).1.currentStep = 1) ∧
    (s.currentStep = flow.steps.length →
      (handleNextStep flows s).1.currentStep = flow.steps.length) ∧
    (∀ c ∈ (handlePreviousStep flows s).2, c.duration = 5000) ∧
    (∀ c ∈ (handleNextStep flows s).2, c.duration = 5000) := by
  have hne : ¬ flows.length = 0 := by
    obtain ⟨hlt, -⟩ := List.getElem?_eq_some_iff.mp hflow
    omega
  have hprev : handlePreviousStep flows s =
      ({ s with currentStep := max 1 (s.currentStep - 1) },
       (flow.steps[max 1 (s.currentStep - 1) - 1]?).map
         fun st => ⟨st.node, 5000, st.step⟩) := by
    rw [handlePreviousStep, if_neg hne, hflow]
  have hnext : handleNextStep flows s =
      ({ s with currentStep := min flow.steps.length (s.currentStep + 1) },
       (flow.steps[min flow.steps.length (s.currentStep + 1) - 1]?).map
         fun st => ⟨st.node, 5000, st.step⟩) := by
    rw [handleNextStep, if_neg hne, hflow]
  rw [hprev, hnext]
  dsimp only
  refine ⟨rfl, le_max_left 1 _, max_le hsteps (by omega), rfl,
    le_min hsteps (by omega), min_le_left _ _,
    fun h => by rw [h]; exact max_eq_left (by omega),
    fun h => by rw [h]; exact min_eq_left (by omega), ?_, ?_⟩
  · intro c hc
    rcases Option.map_eq_some'.mp (Option.mem_def.mp hc) with ⟨st, -, hst⟩
    rw [← hst]
  · intro c hc
    rcases Option.map_eq_some'.mp (Option.mem_def.mp hc) with ⟨st, -, hst⟩
    rw [← hst]

/-- C7 witness: the clamping theorem applied at the concrete two-step flow
from step 1 (back stays at 1) and at step 2 (forward stays at 2). -/
theorem c7_witness :
    (handlePreviousStep [demoFlow] ⟨0, true, false, 1⟩).1.currentStep = 1 ∧
    (handleNextStep [demoFlow] ⟨0, true, false, 2⟩).1.currentStep = 2 ∧
    (∀ c ∈ (handleNextStep [demoFlow] ⟨0, true, false, 2⟩).2, c.duration = 5000) := by
  have h1 := c7_manual_navigation [demoFlow] ⟨0, true, false, 1⟩
    demoFlow rfl (by decide) (by decide)
  have h2 := c7_manual_navigation [demoFlow] ⟨0, true, false, 2⟩
    demoFlow rfl (by decide) (by decide)
  exact ⟨h1.2.2.2.2.2.2.1 rfl, h2.2.2.2.2.2.2.2.1 (by decide), h2.2.2.2.2.2.2.2.2.2⟩

/-! ## C8: stop command -/

/-- Clearing the highlights is idempotent and leaves no emphasis. -/
theorem clearHighlights_cleared (d : DiagramDom) :
    (clearHighlights d).fullyCleared = true ∧
    clearHighlights (clearHighlights d) = clearHighlights d := by
  constructor
  · rw [DiagramDom.fullyCleared]
    simp [clearHighlights, List.all_map, Function.comp_def, clearNode, clearArrow]
  · simp [clearHighlights, List.map_map]
    exact ⟨fun n _ => rfl, fun a _ => rfl⟩

/-- C8: from any engine state the stop handler yields the idle state —
animating and paused flags cleared, current step 0 — with zero remaining
visual emphasis on every rendered node and edge, and issuing stop again
leaves that state unchanged. -/
theorem c8_stop_idempotent (s : EngineUI) :
    handleStopAnimation s =
      { isAnimating := false, isPaused := false, currentStep := 0,
        dom := clearHighlights s.dom } ∧
    (handleStopAnimation s).currentStep = 0 ∧
    (handleStopAnimation s).isAnimating = false ∧
    (handleStopAnimation s).isPaused = false ∧
    (handleStopAnimation s).dom.fullyCleared = true ∧
    handleStopAnimation (handleStopAnimation s) = handleStopAnimation s := by
  refine ⟨rfl, rfl, rfl, rfl, (clearHighlights_cleared s.dom).1, ?_⟩
  have h2 : handleStopAnimation (handleStopAnimation s) =
      EngineUI.mk false false 0 (clearHighlights (clearHighlights s.dom)) := rfl
  rw [h2, (clearHighlights_cleared s.dom).2]
  rfl

/-! ## C9: job mutations on an absent job id -/

/-- Looking a key up after erasing another key: erasing `key` hides `key`
and leaves every other binding visible. -/
theorem lookup_eraseKey {V : Type} (store : List (String × V)) (key k : String) :
    List.lookup k (store.filter fun p => !(p.1 == key)) =
      if k = key then none else List.lookup k store := by
  induction store with
  | nil => simp [List.lookup]
  | cons a rest ih =>
    obtain ⟨ak, av⟩ := a
    by_cases hak : ak = key
    · subst hak
      have hcond : ¬ ((!(ak == ak)) = true) := by simp
      rw [List.filter_cons, if_neg hcond, ih]
      by_cases hk : k = ak
      · simp [hk]
      · have hkb : (k == ak) = false := beq_eq_false_iff_ne.mpr hk
        simp [List.lookup, hk, hkb]
    · have hb : (ak == key) = false := beq_eq_false_iff_ne.mpr hak
      rw [List.filter_cons]
      simp only [hb, Bool.not_false, if_pos]
      by_cases hk : k = ak
      · subst hk
        have hknekey : ¬ k = key := hak
        simp [List.lookup, hknekey]
      · have hkb : (k == ak) = false := beq_eq_false_iff_ne.mpr hk
        simp [List.lookup, hkb, ih]

/-- The store returned by `getAnalysisJob` is the store after the
underlying `kv.get`. -/
theorem getAnalysisJobS_snd (store : KVStore) (now : Nat) (id : String) :
    (getAnalysisJobS store now id).2 = (kvGet store now (analysisKey id)).2 := by
  rw [getAnalysisJobS]
  rcases hkv : (kvGet store now (analysisKey id)).1 with _ | v <;> simp [hkv]

/-- The `kv.get` read leaves the store unchanged, except that reading an
expired entry deletes it. -/
theorem kvGet_snd_cases (store : KVStore) (now : Nat) (key : String) :
    (kvGet store now key).2 = store ∨
      (kvGet store now key).2 = kvErase store key := by
  rw [kvGet]
  rcases hl : List.lookup key store with _ | e
  · exact Or.inl rfl
  · rcases hx : e.expiresAt with _ | exp
    · simp [hx]
    · by_cases hexp : exp < now
      · simp [hx, hexp]
      · simp [hx, hexp]

/-- C9 counterexample: reading an expired entry lazily deletes it, so on a
store holding one expired job entry, `updateAnalysisStatus` with that id
returns a store that lost the entry — the status store is not left
entirely unchanged. -/
theorem c9_counterexample :
    (getAnalysisJobS staleStore 10 "stale").1 = none ∧
    updateAnalysisStatusS staleStore 10 "stale" initialStatus = [] ∧
    ([] : KVStore) ≠ staleStore := by
  refine ⟨by decide, by decide, by decide⟩

/-- C9 (amended): when `getAnalysisJob` reports the id absent (never
created, expired, or unparsable), the three mutating operations return
normally, perform no write, and return exactly the post-read store: no
entry is created or modified, every other key's binding is untouched, and
the store is unchanged except that the lazy-expiry read may have deleted
the already-expired entry under the job's key. -/
theorem c9_amended (store : KVStore) (now : Nat) (id : String)
    (st : AnalysisStatus) (res : ArchitectureAnalysis) (msg : String)
    (habsent : (getAnalysisJobS store now id).1 = none) :
    updateAnalysisStatusS store now id st = (getAnalysisJobS store now id).2 ∧
    completeAnalysisJobS store now id res = (getAnalysisJobS store now id).2 ∧
    failAnalysisJobS store now id msg = (getAnalysisJobS store now id).2 ∧
    (∀ k, k ≠ analysisKey id →
      List.lookup k (getAnalysisJobS store now id).2 = List.lookup k store) ∧
    ((getAnalysisJobS store now id).2 = store ∨
      (getAnalysisJobS store now id).2 = kvErase store (analysisKey id)) := by
  refine ⟨?_, ?_, ?_, ?_, ?_⟩
  · rw [updateAnalysisStatusS, habsent]
  · rw [completeAnalysisJobS, habsent]
  · rw [failAnalysisJobS, habsent]
  · intro k hk
    rcases (getAnalysisJobS_snd store now id) ▸ kvGet_snd_cases store now (analysisKey id)
      with h | h
    · rw [h]
    · rw [h, kvErase, lookup_eraseKey, if_neg hk]
  · exact (getAnalysisJobS_snd store now id) ▸ kvGet_snd_cases store now (analysisKey id)

/-- C9 witness: the amended theorem applied at the empty store, where the
id is absent and all three operations return the store untouched. -/
theorem c9_witness :
    (getAnalysisJobS [] 0 "nope").1 = none ∧
    updateAnalysisStatusS [] 0 "nope" initialStatus = [] ∧
    completeAnalysisJobS [] 0 "nope" demoArtifact = [] ∧
    failAnalysisJobS [] 0 "nope" "boom" = [] := by
  have h := c9_amended [] 0 "nope" initialStatus demoArtifact "boom" rfl
  exact ⟨rfl, h.1, h.2.1, h.2.2.1⟩

/-! ## C10: blob store round trip -/

/-- Splitting a character list at a slash is unambiguous when the part
before the slash contains no slash. -/
theorem slash_append_inj : ∀ (o₁ o₂ r₁ r₂ : List Char),
    '/' ∉ o₁ → '/' ∉ o₂ → o₁ ++ '/' :: r₁ = o₂ ++ '/' :: r₂ →
    o₁ = o₂ ∧ r₁ = r₂ := by
  intro o₁
  induction o₁ with
  | nil =>
    intro o₂ r₁ r₂ _ ho₂ h
    rcases o₂ with _ | ⟨c, o₂⟩
    · simpa using h
    · simp at h
      exact absurd (h.1 ▸ List.mem_cons_self c o₂) (h.1 ▸ ho₂)
  | cons c o₁ ih =>
    intro o₂ r₁ r₂ ho₁ ho₂ h
    rcases o₂ with _ | ⟨d, o₂⟩
    · simp at h
      exact absurd (h.1 ▸ List.mem_cons_self c o₁) (h.1 ▸ ho₁)
    · simp at h
      obtain ⟨hcd, hrest⟩ := h
      have ho₁' : '/' ∉ o₁ := fun hm => ho₁ (List.mem_cons_of_mem c hm)
      have ho₂' : '/' ∉ o₂ := fun hm => ho₂ (List.mem_cons_of_mem d hm)
      obtain ⟨ho, hr⟩ := ih o₂ r₁ r₂ ho₁' ho₂' hrest
      exact ⟨by rw [hcd, ho], hr⟩

/-- The derived blob key is injective on repositories whose owner and name
contain no slash. -/
theorem storageKey_inj (r₁ r₂ : GitHubRepo)
    (h₁o : '/' ∉ r₁.owner.data) (h₁n : '/' ∉ r₁.name.data)
    (h₂o : '/' ∉ r₂.owner.data) (h₂n : '/' ∉ r₂.name.data)
    (hkey : storageKey r₁ = storageKey r₂) :
    r₁.owner = r₂.owner ∧ r₁.name = r₂.name := by
  have hd : r₁.owner.data ++ '/' :: (r₁.name.data ++ '/' :: "analysis.json".data) =
      r₂.owner.data ++ '/' :: (r₂.name.data ++ '/' :: "analysis.json".data) := by
    have h := congrArg String.data hkey
    simpa [storageKey, getRepoKey, String.data_append] using h
  obtain ⟨ho, hrest⟩ :=
    slash_append_inj _ _ _ _ h₁o h₂o hd
  obtain ⟨hn, -⟩ :=
    slash_append_inj _ _ _ _ h₁n h₂n hrest
  exact ⟨String.ext ho, String.ext hn⟩

/-- Reading back the key just written returns the written value. -/
theorem blobGet_blobPut_same (store : BlobStore) (key : String) (v : BlobVal) :
    blobGet (blobPut store key v) key = some v := by
  simp [blobGet, blobPut, List.lookup]

/-- Writing one key does not affect reads of a different key. -/
theorem blobGet_blobPut_ne (store : BlobStore) (k₁ k₂ : String) (v : BlobVal)
    (h : k₂ ≠ k₁) : blobGet (blobPut store k₁ v) k₂ = blobGet store k₂ := by
  have hkb : (k₂ == k₁) = false := beq_eq_false_iff_ne.mpr h
  rw [blobGet, blobPut, List.lookup]
  rw [hkb]
  show List.lookup k₂ (store.filter fun p => !(p.1 == k₁)) = _
  rw [lookup_eraseKey, if_neg h]
  rfl

/-- C10 counterexample: the storage key `owner/name/analysis.json` is not
injective on repository identities — saving under `{owner := "a",
name := "b/c"}` and reading under the distinct, never-saved identity
`{owner := "a/b", name := "c"}` returns the saved artifact instead of
`null`. -/
theorem c10_counterexample :
    getAnalysisS (saveAnalysisS [] repoSlashOne demoArtifact) repoSlashTwo =
      some demoArtifact ∧
    repoSlashTwo ≠ repoSlashOne ∧
    getAnalysisS ([] : BlobStore) repoSlashTwo = none := by
  refine ⟨by decide, by decide, rfl⟩

/-- C10 (amended): in the development in-memory blob store, save-then-load
round-trips — `getAnalysis` after `saveAnalysis` of the same identity
returns the saved artifact — and `getAnalysis` of a never-saved identity
returns `null` on the empty store and is preserved by saves of other
identities provided owners and names contain no slash (the key derivation
is injective only on slash-free identities). -/
theorem c10_amended :
    (∀ (store : BlobStore) (repo : GitHubRepo) (a : ArchitectureAnalysis),
      getAnalysisS (saveAnalysisS store repo a) repo = some a) ∧
    (∀ repo : GitHubRepo, getAnalysisS ([] : BlobStore) repo = none) ∧
    (∀ (store : BlobStore) (r₁ r₂ : GitHubRepo) (a : ArchitectureAnalysis),
      '/' ∉ r₁.owner.data → '/' ∉ r₁.name.data →
      '/' ∉ r₂.owner.data → '/' ∉ r₂.name.data →
      r₁.owner ≠ r₂.owner ∨ r₁.name ≠ r₂.name →
      getAnalysisS store r₂ = none →
      getAnalysisS (saveAnalysisS store r₁ a) r₂ = none) := by
  refine ⟨?_, fun repo => rfl, ?_⟩
  · intro store repo a
    rw [getAnalysisS, saveAnalysisS, blobGet_blobPut_same]
    rfl
  · intro store r₁ r₂ a h₁o h₁n h₂o h₂n hne hnone
    have hkey : storageKey r₂ ≠ storageKey r₁ := by
      intro h
      obtain ⟨ho, hn⟩ := storageKey_inj r₂ r₁ h₂o h₂n h₁o h₁n h
      rcases hne with hno | hnn
      · exact hno (ho.symm)
      · exact hnn (hn.symm)
    rw [getAnalysisS, saveAnalysisS, blobGet_blobPut_ne _ _ _ _ hkey]
    rw [getAnalysisS] at hnone
    exact hnone

/-- C10 witness: the amended theorem applied at the empty store with two
concrete slash-free identities. -/
theorem c10_witness :
    getAnalysisS (saveAnalysisS [] demoRepo demoArtifact) demoRepo =
      some demoArtifact ∧
    getAnalysisS (saveAnalysisS [] demoRepo demoArtifact) demoRepoOther = none := by
  constructor
  · exact c10_amended.1 [] demoRepo demoArtifact
  · exact c10_amended.2.2 [] demoRepo demoRepoOther demoArtifact
      (by decide) (by decide) (by decide) (by decide)
      (Or.inr (by decide)) rfl

end ArchFlow
